import Mathlib

/-!
Verification of the terminal interaction core of the speech-to-text CLI
(`src/main.go` and the pipeline file): the Bubble Tea `model` record, its
`Update` event handler, the pure `wrapText` word-wrapper, the scroll-window
computation of `renderScrollableTranscription`, and the success/failure
outcome of the transcription pipeline.

Conventions of the embedding:
- Go `int` fields become `Int`; Go `len` of a string counts UTF-8 bytes
  (`goLen`); Go `strings.Fields` / `strings.Split` / `strings.Join` /
  `strings.TrimSpace` are embedded as `goFields` / `goSplitNewline` /
  `goJoin` / `goTrimSpace` on Lean strings.
- The external widget collaborators (file picker, spinner) and the `tea.Cmd`
  side effects carry no session state of their own in the spec's data model,
  so the embedded `Model` holds exactly the session fields of the Go struct;
  a file selection reported by the picker (`DidSelectFile`) is delivered as
  its own `Event.fileChosen` event, and the pure key messages the picker
  consumes for navigation never change the session fields.
- Job completion messages (`processCompleteMsg` / `processErrorMsg`) are
  handled by `Update` unconditionally, exactly as in the Go `switch`; the
  runtime delivers exactly one completion per started job (the job starts on
  file selection and there is no path back to the file picker), which the
  trace relation `Reachable` records via the `Admissible` guard.
-/

/-- Go's `unicode.IsSpace`, used by `strings.Fields` and `strings.TrimSpace`:
true on the Latin-1 white space characters and the Unicode space property
code points. -/
def goIsSpace (c : Char) : Bool :=
  let n := c.toNat
  n == 9 || n == 10 || n == 11 || n == 12 || n == 13 || n == 32 ||
  n == 0x85 || n == 0xA0 || n == 0x1680 ||
  (Nat.ble 0x2000 n && Nat.ble n 0x200A) ||
  n == 0x2028 || n == 0x2029 || n == 0x202F || n == 0x205F || n == 0x3000

/-- The newline character, written via `Char.ofNat`. -/
def nlChar : Char := Char.ofNat 10

/-- The space character, written via `Char.ofNat`. -/
def spaceChar : Char := Char.ofNat 32

/-- Split a character list at every character satisfying `p`, keeping empty
runs (the character-level core of Go's `strings.Split` and, after filtering,
`strings.Fields`). -/
def splitCharsOn (p : Char → Bool) : List Char → List (List Char)
  | [] => [[]]
  | c :: rest =>
    if p c then [] :: splitCharsOn p rest
    else
      match splitCharsOn p rest with
      | [] => [[c]]
      | f :: fs => (c :: f) :: fs

/-- Go `strings.Fields(s)`: the maximal runs of non-whitespace characters of
`s`, in order. -/
def goFields (s : String) : List String :=
  ((splitCharsOn goIsSpace s.data).filter (fun f => f ≠ [])).map String.mk

/-- Go `strings.Split(s, "\n")`. -/
def goSplitNewline (s : String) : List String :=
  (splitCharsOn (fun c => c == nlChar) s.data).map String.mk

/-- Go `strings.Join(elems, sep)`. -/
def goJoin (sep : String) : List String → String
  | [] => ""
  | [x] => x
  | x :: y :: rest => x ++ sep ++ goJoin sep (y :: rest)

/-- UTF-8 byte count of a character list. -/
def goLenL : List Char → Nat
  | [] => 0
  | c :: rest => c.utf8Size + goLenL rest

/-- Go `len(s)` on a string: the number of UTF-8 bytes. -/
def goLen (s : String) : Nat := goLenL s.data

/-- The accumulator loop of `wrapText` (src/main.go lines 233-252): Go keeps
`currentLine` and the emitted `lines`, appends a joining space only when the
current line is non-empty, and flushes the current line when the candidate
exceeds `width`. -/
def wrapLoop (width : Int) : List String → String → List String → List String
  | [], currentLine, lines =>
      if currentLine ≠ "" then lines ++ [currentLine] else lines
  | word :: rest, currentLine, lines =>
      let testLine := (if currentLine = "" then currentLine else currentLine ++ " ") ++ word
      if (goLen testLine : Int) ≤ width then
        wrapLoop width rest testLine lines
      else
        wrapLoop width rest word (if currentLine ≠ "" then lines ++ [currentLine] else lines)

/-- `wrapText` (src/main.go lines 220-255): returns `text` unchanged when
`width ≤ 0` or `strings.Fields(text)` is empty, and otherwise the greedy
wrap of the tokens joined by newlines. -/
def wrapText (text : String) (width : Int) : String :=
  if width ≤ 0 then text
  else
    let words := goFields text
    if words = [] then text
    else goJoin "\n" (wrapLoop width words "" [])

/-- The reference greedy word-wrap, written from the specification's words
(spec section 4.1 and claim C6): when `width ≤ 0` or there are no
whitespace-separated tokens the input is the single produced line; otherwise
tokens are packed onto the current line while
`current_line_length + 1 + token_length ≤ width`, a new line starts
otherwise, and a token is never split. -/
def wrapSpecGo (width : Int) : String → List String → List String
  | cur, [] => [cur]
  | cur, t :: ts =>
      if (goLen cur : Int) + 1 + (goLen t : Int) ≤ width then
        wrapSpecGo width (cur ++ " " ++ t) ts
      else
        cur :: wrapSpecGo width t ts

/-- The reference greedy word-wrap on a whole text: see `wrapSpecGo`. -/
def wrapSpec (text : String) (width : Int) : List String :=
  if width ≤ 0 then [text]
  else
    match goFields text with
    | [] => [text]
    | t :: ts => wrapSpecGo width t ts

/-- The scroll-window computation of `renderScrollableTranscription`
(src/main.go lines 258-284), with the viewport height `height` passed as a
parameter (the Go method computes it as `m.height - 10`): clamp the height
to a minimum of 5, slice `lines` at the scroll offset, re-anchor to the last
lines when the offset is past the end, rejoin and resplit on newlines as the
Go code does, and pad with blank lines up to the clamped height. -/
def computeWindow (lines : List String) (offset : Nat) (height : Int) : List String :=
  let th : Nat := (if height < 5 then (5 : Int) else height).toNat
  let len := lines.length
  let startLine := offset
  let endLine := min (startLine + th) len
  let start := if startLine ≥ len then len - th else startLine
  let stop := if startLine ≥ len then len else endLine
  let visible := (lines.drop start).take (stop - start)
  let visibleLines := goSplitNewline (goJoin "\n" visible)
  visibleLines ++ List.replicate (th - visibleLines.length) ""

/-- The three values of the Go `state` field (src/main.go lines 16-20). -/
inductive GoState
  | selectFile
  | processing
  | complete
deriving DecidableEq, Repr

/-- The session fields of the Go `model` struct (src/main.go lines 45-56).
The `filepicker` and `spinner` widget fields are external collaborators with
no session state and are not part of the embedded record. -/
structure Model where
  state : GoState
  selectedFile : String
  transcription : String
  error : String
  width : Int
  height : Int
  scrollOffset : Int
  maxScroll : Int
deriving DecidableEq, Repr

/-- `initialModel` (src/main.go lines 58-77): Go zero values for the string
fields, dimensions 80 by 24, scroll state zero. -/
def initialModel : Model :=
  { state := .selectFile
    selectedFile := ""
    transcription := ""
    error := ""
    width := 80
    height := 24
    scrollOffset := 0
    maxScroll := 0 }

/-- The events dispatched to `Update`: key messages, window resizes, spinner
ticks, a file selection reported by the picker, and the two job completion
messages `processCompleteMsg` / `processErrorMsg`. -/
inductive Event
  | key (s : String)
  | resize (w h : Int)
  | tick
  | fileChosen (path : String)
  | jobSuccess (text : String)
  | jobFailure (msg : String)
deriving DecidableEq, Repr

/-- The cases of the Go `switch msg.String()` on key messages
(src/main.go lines 86-109). -/
inductive KeyCase
  | quit
  | upK
  | downK
  | homeK
  | endK
  | other
deriving DecidableEq, Repr

/-- Which case of the key switch a key string selects (the case labels of
src/main.go lines 87-105; the cases are disjoint, so first-match equals
case analysis). -/
def keyCase (s : String) : KeyCase :=
  if s = "ctrl+c" ∨ s = "q" then .quit
  else if s = "up" ∨ s = "k" then .upK
  else if s = "down" ∨ s = "j" then .downK
  else if s = "home" then .homeK
  else if s = "end" then .endK
  else .other

/-- The `maxScroll` computation of the `processCompleteMsg` branch
(src/main.go lines 123-137): viewport height `h - 10` clamped to a minimum
of 5, wrap the text at `w - 8`, count the lines of the wrapped text, and
keep the excess over the viewport height (0 when it fits). -/
def computeMaxScroll (text : String) (w h : Int) : Int :=
  let transcriptionHeight : Int := if h - 10 < 5 then 5 else h - 10
  let totalLines : Int := ((goSplitNewline (wrapText text (w - 8))).length : Int)
  if totalLines > transcriptionHeight then totalLines - transcriptionHeight else 0

/-- The `Update` method (src/main.go lines 83-171) restricted to the session
fields. Key messages other than the handled cases, tick messages, and the
widget updates of the fall-through state switch leave every session field
unchanged; a file selection (the `DidSelectFile` branch, lines 160-164) is
its own event and only acts in the file-selection state. -/
def update (m : Model) : Event → Model
  | .key ks =>
    match keyCase ks with
    | .quit => m
    | .upK =>
      if m.state = .complete ∧ m.transcription ≠ "" then
        if m.scrollOffset > 0 then { m with scrollOffset := m.scrollOffset - 1 } else m
      else m
    | .downK =>
      if m.state = .complete ∧ m.transcription ≠ "" then
        if m.scrollOffset < m.maxScroll then { m with scrollOffset := m.scrollOffset + 1 } else m
      else m
    | .homeK =>
      if m.state = .complete ∧ m.transcription ≠ "" then { m with scrollOffset := 0 } else m
    | .endK =>
      if m.state = .complete ∧ m.transcription ≠ "" then { m with scrollOffset := m.maxScroll } else m
    | .other => m
  | .resize w h => { m with width := w, height := h }
  | .tick => m
  | .fileChosen path =>
    if m.state = .selectFile then { m with selectedFile := path, state := .processing } else m
  | .jobSuccess text =>
    { m with state := .complete
             transcription := text
             scrollOffset := 0
             maxScroll := computeMaxScroll text m.width m.height }
  | .jobFailure msg => { m with error := msg, state := .complete }

/-- Which events the runtime can deliver in a given session state: key,
resize, tick and file-selection events at any time, but a job completion
only while a job is pending, which in this program is exactly the
processing state (the job starts on file selection, exactly one completion
is delivered per started job, and there is no path back to the picker). -/
def Admissible (m : Model) : Event → Prop
  | .jobSuccess _ => m.state = .processing
  | .jobFailure _ => m.state = .processing
  | _ => True

/-- Session states reachable from `initialModel` by admissible events. -/
inductive Reachable : Model → Prop
  | init : Reachable initialModel
  | step {m : Model} {e : Event} : Reachable m → Admissible m e → Reachable (update m e)

/-- Fold an arbitrary event list over `update` from the initial session. -/
def applyEvents (es : List Event) : Model := es.foldl update initialModel

/-- The visible lines rendered by `renderScrollableTranscription` for a
session: the transcription wrapped at `m.width - 8`, split on newlines, and
windowed at the scroll offset with viewport height `m.height - 10`. -/
def renderVisibleLines (m : Model) : List String :=
  computeWindow (goSplitNewline (wrapText m.transcription (m.width - 8)))
    m.scrollOffset.toNat (m.height - 10)

/-- Go `strings.TrimSpace`: drop `unicode.IsSpace` characters from both
ends. -/
def goTrimSpace (s : String) : String :=
  String.mk (((s.data.dropWhile goIsSpace).reverse.dropWhile goIsSpace).reverse)

/-- The result-delivery tail of `transcribeAudio` (pipeline source lines
290-303): once the external steps have succeeded and the transcription file
has been read, the contents are trimmed, and an empty trimmed transcription
is replaced by the placeholder text and still returned with a nil error. -/
def transcribeAudioResult (fileContents : String) : Except String String :=
  let transcription := goTrimSpace fileContents
  if transcription = "" then Except.ok "No speech detected in the audio file."
  else Except.ok transcription

/-- `processAudioSTT` (pipeline source lines 154-184) forwards the
transcription outcome: a successful `transcribeAudio` result is returned
with a nil error, a failing one is wrapped as an error. -/
def processAudioSTTResult (fileContents : String) : Except String String :=
  match transcribeAudioResult fileContents with
  | Except.ok t => Except.ok t
  | Except.error e => Except.error ("transcription failed: " ++ e)

/-! ### Lemmas about character splitting and fields -/

theorem splitCharsOn_ne_nil (p : Char → Bool) (cs : List Char) : splitCharsOn p cs ≠ [] := by
  induction cs with
  | nil => simp [splitCharsOn]
  | cons c rest ih =>
    simp only [splitCharsOn]
    split
    · simp
    · split <;> simp

theorem splitCharsOn_all_not (p : Char → Bool) (cs : List Char)
    (h : ∀ c ∈ cs, p c = false) : splitCharsOn p cs = [cs] := by
  induction cs with
  | nil => rfl
  | cons c rest ih =>
    have hc : p c = false := h c (by simp)
    have hr : splitCharsOn p rest = [rest] := ih (fun x hx => h x (by simp [hx]))
    simp [splitCharsOn, hc, hr]

theorem splitCharsOn_append_sep (p : Char → Bool) (s : Char) (hs : p s = true)
    (a b : List Char) :
    splitCharsOn p (a ++ s :: b) = splitCharsOn p a ++ splitCharsOn p b := by
  induction a with
  | nil => simp [splitCharsOn, hs]
  | cons c a ih =>
    by_cases hc : p c
    · simp [splitCharsOn, hc, ih]
    · have hc' : p c = false := by simpa using hc
      rcases h : splitCharsOn p a with _ | ⟨f, fs⟩
      · exact absurd h (splitCharsOn_ne_nil p a)
      · simp [splitCharsOn, hc', ih, h]

theorem mem_splitCharsOn_not_sep (p : Char → Bool) {cs f : List Char}
    (hf : f ∈ splitCharsOn p cs) : ∀ c ∈ f, p c = false := by
  induction cs generalizing f with
  | nil =>
    simp [splitCharsOn] at hf
    subst hf; simp
  | cons c rest ih =>
    simp only [splitCharsOn] at hf
    by_cases hc : p c
    · rw [if_pos hc] at hf
      rcases List.mem_cons.mp hf with rfl | hf
      · simp
      · exact ih hf
    · rw [if_neg hc] at hf
      rcases h : splitCharsOn p rest with _ | ⟨g, gs⟩
      · exact absurd h (splitCharsOn_ne_nil p rest)
      · rw [h] at hf
        rcases List.mem_cons.mp hf with rfl | hf
        · intro x hx
          rcases List.mem_cons.mp hx with rfl | hx
          · simpa using hc
          · exact ih (by rw [h]; exact List.mem_cons_self g gs) x hx
        · exact ih (by rw [h]; exact List.mem_cons_of_mem g hf)

theorem string_ne_empty_iff (s : String) : s ≠ "" ↔ s.data ≠ [] := by
  rw [not_iff_not, String.ext_iff]

theorem goFields_token_props (s : String) :
    ∀ t ∈ goFields s, t.data ≠ [] ∧ ∀ c ∈ t.data, goIsSpace c = false := by
  intro t ht
  unfold goFields at ht
  simp only [List.mem_map, List.mem_filter] at ht
  obtain ⟨f, ⟨hf, hfne⟩, rfl⟩ := ht
  refine ⟨by simpa using hfne, ?_⟩
  simpa using mem_splitCharsOn_not_sep goIsSpace hf

theorem goFields_token_ne_empty (s : String) : ∀ t ∈ goFields s, t ≠ "" := by
  intro t ht
  rw [string_ne_empty_iff]
  exact (goFields_token_props s t ht).1

theorem goFields_single (t : String) (h1 : t.data ≠ [])
    (h2 : ∀ c ∈ t.data, goIsSpace c = false) : goFields t = [t] := by
  unfold goFields
  rw [splitCharsOn_all_not _ _ h2]
  simp [h1]

theorem goFields_append_char (s : Char) (hs : goIsSpace s = true) (a b : String) :
    goFields (a ++ String.mk [s] ++ b) = goFields a ++ goFields b := by
  unfold goFields
  have hdata : (a ++ String.mk [s] ++ b).data = a.data ++ s :: b.data := by
    rw [String.data_append, String.data_append]
    simp
  rw [hdata, splitCharsOn_append_sep goIsSpace s hs, List.filter_append, List.map_append]

theorem goFields_append_space (a b : String) :
    goFields (a ++ " " ++ b) = goFields a ++ goFields b := by
  rw [show (" " : String) = String.mk [spaceChar] from by decide]
  exact goFields_append_char spaceChar (by decide) a b

theorem goFields_append_newline (a b : String) :
    goFields (a ++ "\n" ++ b) = goFields a ++ goFields b := by
  rw [show ("\n" : String) = String.mk [nlChar] from by decide]
  exact goFields_append_char nlChar (by decide) a b

theorem goJoin_cons (sep x : String) (l : List String) (h : l ≠ []) :
    goJoin sep (x :: l) = x ++ sep ++ goJoin sep l := by
  cases l with
  | nil => exact absurd rfl h
  | cons y t => rfl

theorem goSplitNewline_nl_free (s : String) :
    ∀ x ∈ goSplitNewline s, ∀ c ∈ x.data, (c == nlChar) = false := by
  intro x hx
  unfold goSplitNewline at hx
  simp only [List.mem_map] at hx
  obtain ⟨f, hf, rfl⟩ := hx
  simpa using mem_splitCharsOn_not_sep (fun c => c == nlChar) hf

theorem goSplit_goJoin (l : List String) (hne : l ≠ [])
    (hnl : ∀ x ∈ l, ∀ c ∈ x.data, (c == nlChar) = false) :
    goSplitNewline (goJoin "\n" l) = l := by
  induction l with
  | nil => exact absurd rfl hne
  | cons x l ih =>
    cases l with
    | nil =>
      unfold goSplitNewline goJoin
      rw [splitCharsOn_all_not _ _ (hnl x (by simp))]
      simp
    | cons y t =>
      rw [goJoin_cons _ _ _ (by simp)]
      unfold goSplitNewline
      have hdata : (x ++ "\n" ++ goJoin "\n" (y :: t)).data
          = x.data ++ nlChar :: (goJoin "\n" (y :: t)).data := by
        rw [String.data_append, String.data_append,
          show ("\n" : String).data = [nlChar] from by decide]
        simp
      rw [hdata, splitCharsOn_append_sep _ nlChar (by simp), List.map_append,
        splitCharsOn_all_not _ _ (hnl x (by simp))]
      have ihr : (splitCharsOn (fun c => c == nlChar) (goJoin "\n" (y :: t)).data).map String.mk
          = y :: t := ih (by simp) (fun z hz => hnl z (by simp [hz]))
      rw [ihr]
      simp

/-! ### Lemmas about byte lengths and the greedy wrap -/

theorem goLenL_append (a b : List Char) : goLenL (a ++ b) = goLenL a + goLenL b := by
  induction a with
  | nil => simp [goLenL]
  | cons c a ih => simp [goLenL, ih]; omega

theorem goLen_append_word (cur t : String) :
    goLen (cur ++ " " ++ t) = goLen cur + 1 + goLen t := by
  unfold goLen
  rw [String.data_append, String.data_append, goLenL_append, goLenL_append]
  have hsp : goLenL (" " : String).data = 1 := by decide
  rw [hsp]

theorem string_append_space_ne_empty (cur t : String) : cur ++ " " ++ t ≠ "" := by
  rw [string_ne_empty_iff, String.data_append, String.data_append]
  simp [show (" " : String).data = [spaceChar] from by decide]

theorem wrapLoop_eq_spec (width : Int) :
    ∀ (ts : List String) (cur : String) (acc : List String),
      cur ≠ "" → (∀ t ∈ ts, t ≠ "") →
      wrapLoop width ts cur acc = acc ++ wrapSpecGo width cur ts := by
  intro ts
  induction ts with
  | nil =>
    intro cur acc hcur _
    simp [wrapLoop, wrapSpecGo, hcur]
  | cons t ts ih =>
    intro cur acc hcur hts
    have ht : t ≠ "" := hts t (by simp)
    have hts' : ∀ u ∈ ts, u ≠ "" := fun u hu => hts u (by simp [hu])
    have hlen : goLen ((if cur = "" then cur else cur ++ " ") ++ t)
        = goLen cur + 1 + goLen t := by
      rw [if_neg hcur]
      exact goLen_append_word cur t
    simp only [wrapLoop, wrapSpecGo]
    by_cases hle : (goLen cur : Int) + 1 + (goLen t : Int) ≤ width
    · rw [if_pos (by rw [hlen]; push_cast; omega), if_pos hle, if_neg hcur]
      exact ih (cur ++ " " ++ t) acc (string_append_space_ne_empty cur t) hts'
    · rw [if_neg (by rw [hlen]; push_cast; omega), if_neg hle, if_pos hcur]
      rw [ih t (acc ++ [cur]) ht hts']
      simp

theorem wrapLoop_start (width : Int) (t : String) (ts : List String)
    (hts : ∀ u ∈ t :: ts, u ≠ "") :
    wrapLoop width (t :: ts) "" [] = wrapSpecGo width t ts := by
  have ht : t ≠ "" := hts t (by simp)
  have hts' : ∀ u ∈ ts, u ≠ "" := fun u hu => hts u (by simp [hu])
  have hstep : wrapLoop width (t :: ts) "" [] = wrapLoop width ts t [] := by
    simp only [wrapLoop, if_pos, String.empty_append]
    split
    · rfl
    · simp
  rw [hstep, wrapLoop_eq_spec width ts t [] ht hts']
  simp

theorem wrapText_eq_goJoin_wrapSpec (text : String) (width : Int) :
    wrapText text width = goJoin "\n" (wrapSpec text width) := by
  unfold wrapText wrapSpec
  by_cases hw : width ≤ 0
  · rw [if_pos hw, if_pos hw]
    rfl
  · rw [if_neg hw, if_neg hw]
    rcases h : goFields text with _ | ⟨t, ts⟩
    · simp [h, goJoin]
    · have hts : ∀ u ∈ t :: ts, u ≠ "" := by
        rw [← h]; exact goFields_token_ne_empty text
      simp only [h]
      rw [wrapLoop_start width t ts hts]
      simp

theorem wrapSpecGo_ne_nil (width : Int) :
    ∀ (ts : List String) (cur : String), wrapSpecGo width cur ts ≠ [] := by
  intro ts
  induction ts with
  | nil => intro cur; simp [wrapSpecGo]
  | cons t ts ih =>
    intro cur
    simp only [wrapSpecGo]
    split
    · exact ih (cur ++ " " ++ t)
    · simp

theorem wrapSpecGo_line_bound (width : Int) (S : List String) :
    ∀ (ts : List String) (cur : String),
      ((goLen cur : Int) ≤ width ∨ cur ∈ S) → (∀ t ∈ ts, t ∈ S) →
      ∀ l ∈ wrapSpecGo width cur ts, (goLen l : Int) ≤ width ∨ l ∈ S := by
  intro ts
  induction ts with
  | nil =>
    intro cur hcur _ l hl
    simp only [wrapSpecGo, List.mem_singleton] at hl
    subst hl
    exact hcur
  | cons t ts ih =>
    intro cur hcur hts l hl
    have hts' : ∀ u ∈ ts, u ∈ S := fun u hu => hts u (by simp [hu])
    simp only [wrapSpecGo] at hl
    by_cases hle : (goLen cur : Int) + 1 + (goLen t : Int) ≤ width
    · rw [if_pos hle] at hl
      refine ih (cur ++ " " ++ t) (Or.inl ?_) hts' l hl
      rw [goLen_append_word]
      push_cast
      omega
    · rw [if_neg hle] at hl
      rcases List.mem_cons.mp hl with rfl | hl
      · exact hcur
      · exact ih t (Or.inr (hts t (by simp))) hts' l hl

theorem goFields_goJoin_wrapSpecGo (width : Int) :
    ∀ (ts : List String) (cur : String),
      (∀ t ∈ ts, t.data ≠ [] ∧ ∀ c ∈ t.data, goIsSpace c = false) →
      goFields (goJoin "\n" (wrapSpecGo width cur ts)) = goFields cur ++ ts := by
  intro ts
  induction ts with
  | nil =>
    intro cur _
    simp [wrapSpecGo, goJoin]
  | cons t ts ih =>
    intro cur hts
    have htok := hts t (by simp)
    have hts' : ∀ u ∈ ts, u.data ≠ [] ∧ ∀ c ∈ u.data, goIsSpace c = false :=
      fun u hu => hts u (by simp [hu])
    simp only [wrapSpecGo]
    by_cases hle : (goLen cur : Int) + 1 + (goLen t : Int) ≤ width
    · rw [if_pos hle, ih (cur ++ " " ++ t) hts', goFields_append_space,
        goFields_single t htok.1 htok.2]
      simp
    · rw [if_neg hle, goJoin_cons _ _ _ (wrapSpecGo_ne_nil width ts t),
        goFields_append_newline, ih t hts', goFields_single t htok.1 htok.2]
      simp

theorem wrapText_of_fields_nil {s : String} (h : goFields s = []) (w : Int) :
    wrapText s w = s := by
  unfold wrapText
  rcases le_or_lt w 0 with h0 | h0
  · rw [if_pos h0]
  · rw [if_neg (not_le.mpr h0)]
    simp [h]

theorem wrapText_of_fields_cons {s t : String} {ts : List String} {w : Int}
    (h : goFields s = t :: ts) (hw : ¬w ≤ 0) :
    wrapText s w = goJoin "\n" (wrapSpecGo w t ts) := by
  have hts : ∀ u ∈ t :: ts, u ≠ "" := by
    rw [← h]; exact goFields_token_ne_empty s
  unfold wrapText
  rw [if_neg hw]
  simp only [h]
  rw [if_neg (by simp), wrapLoop_start w t ts hts]

/-- C6: `wrapText` agrees with the reference greedy word-wrap: for `width ≤ 0`
or a text without whitespace-separated tokens the input is returned unchanged
as the single produced line; otherwise tokens are packed greedily while
`current_line_length + 1 + token_length ≤ width`, a token is never split, and
every produced line is within the width or is a single (overlong) unsplit
token of the input; `wrap("the quick brown fox", 10)` gives
`["the quick", "brown fox"]`. -/
theorem wrapText_matches_reference_wrap :
    (∀ (text : String) (width : Int),
        wrapText text width = goJoin "\n" (wrapSpec text width))
    ∧ (∀ (text : String) (width : Int), 0 < width → goFields text ≠ [] →
        ∀ l ∈ wrapSpec text width, (goLen l : Int) ≤ width ∨ l ∈ goFields text)
    ∧ wrapSpec "the quick brown fox" 10 = ["the quick", "brown fox"]
    ∧ wrapText "the quick brown fox" 10 = "the quick\nbrown fox" := by
  refine ⟨wrapText_eq_goJoin_wrapSpec, ?_, by decide, by decide⟩
  intro text width hw hf l hl
  unfold wrapSpec at hl
  rw [if_neg (by omega)] at hl
  rcases h : goFields text with _ | ⟨t, ts⟩
  · exact absurd h hf
  · rw [h] at hl
    exact wrapSpecGo_line_bound width (t :: ts) ts t
      (Or.inr (by simp)) (fun u hu => by simp [hu]) l hl

/-- Witness for C6 at the concrete example of the claim. -/
theorem wrapText_matches_reference_wrap_witness :
    wrapText "the quick brown fox" 10 = "the quick\nbrown fox"
    ∧ ((goLen "brown fox" : Int) ≤ 10 ∨ "brown fox" ∈ goFields "the quick brown fox") := by
  have h := wrapText_matches_reference_wrap
  exact ⟨h.2.2.2,
    h.2.1 "the quick brown fox" 10 (by decide) (by decide) "brown fox" (by decide)⟩

/-- C8: re-wrapping the (already newline-joined) output of `wrapText` at the
same positive width is a no-op: the produced lines consist of the original
unsplit tokens joined by single spaces and newlines, all of which are
whitespace, so the token sequence and hence the greedy wrap are unchanged. -/
theorem wrapText_idempotent (text : String) (width : Int) (hw : 0 < width) :
    wrapText (wrapText text width) width = wrapText text width := by
  have hw' : ¬width ≤ 0 := by omega
  rcases h : goFields text with _ | ⟨t, ts⟩
  · rw [wrapText_of_fields_nil h width, wrapText_of_fields_nil h width]
  · have htoks : ∀ u ∈ t :: ts, u.data ≠ [] ∧ ∀ c ∈ u.data, goIsSpace c = false := by
      rw [← h]; exact goFields_token_props text
    have hout : wrapText text width = goJoin "\n" (wrapSpecGo width t ts) :=
      wrapText_of_fields_cons h hw'
    have hfout : goFields (wrapText text width) = t :: ts := by
      rw [hout, goFields_goJoin_wrapSpecGo width ts t (fun u hu => htoks u (by simp [hu])),
        goFields_single t (htoks t (by simp)).1 (htoks t (by simp)).2]
      rfl
    rw [wrapText_of_fields_cons hfout hw', ← hout]

/-- Witness for C8 at the concrete example of the claim. -/
theorem wrapText_idempotent_witness :
    wrapText (wrapText "the quick brown fox" 10) 10 = wrapText "the quick brown fox" 10 :=
  wrapText_idempotent "the quick brown fox" 10 (by decide)

/-! ### Lemmas about the event handler -/

theorem update_key_frame (m : Model) (ks : String) :
    (update m (.key ks)).state = m.state
    ∧ (update m (.key ks)).selectedFile = m.selectedFile
    ∧ (update m (.key ks)).transcription = m.transcription
    ∧ (update m (.key ks)).error = m.error
    ∧ (update m (.key ks)).maxScroll = m.maxScroll
    ∧ (update m (.key ks)).width = m.width
    ∧ (update m (.key ks)).height = m.height := by
  simp only [update]
  cases keyCase ks <;> (try simp) <;> split_ifs <;> simp

theorem computeMaxScroll_nonneg (text : String) (w h : Int) :
    0 ≤ computeMaxScroll text w h := by
  simp only [computeMaxScroll]
  split_ifs <;> omega

/-- The scroll invariant of the session (spec section 3). -/
def ScrollInv (m : Model) : Prop :=
  0 ≤ m.scrollOffset ∧ m.scrollOffset ≤ m.maxScroll

theorem update_preserves_scrollInv (m : Model) (e : Event) (h : ScrollInv m) :
    ScrollInv (update m e) := by
  obtain ⟨h0, h1⟩ := h
  cases e with
  | key ks =>
    simp only [update]
    cases keyCase ks <;> (try split_ifs) <;> (constructor <;> (try simp) <;> omega)
  | resize w hh => exact ⟨h0, h1⟩
  | tick => exact ⟨h0, h1⟩
  | fileChosen path =>
    simp only [update]
    split_ifs <;> exact ⟨h0, h1⟩
  | jobSuccess text =>
    exact ⟨by simp [update],
      by simpa [update] using computeMaxScroll_nonneg text m.width m.height⟩
  | jobFailure msg => exact ⟨h0, h1⟩

theorem scroll_up_noop_at_zero (m : Model) (h : m.scrollOffset = 0) :
    update m (.key "up") = m := by
  simp only [update, show keyCase "up" = KeyCase.upK from by decide]
  split_ifs with h1 h2
  · omega
  · rfl
  · rfl

theorem scroll_down_noop_at_max (m : Model) (h : m.scrollOffset = m.maxScroll) :
    update m (.key "down") = m := by
  simp only [update, show keyCase "down" = KeyCase.downK from by decide]
  split_ifs with h1 h2
  · omega
  · rfl
  · rfl

theorem foldl_preserves_scrollInv (es : List Event) :
    ∀ m : Model, ScrollInv m → ScrollInv (es.foldl update m) := by
  induction es with
  | nil => intro m hm; exact hm
  | cons e es ih => intro m hm; exact ih _ (update_preserves_scrollInv m e hm)

/-- C4: after any sequence of events applied to the initial session,
`0 ≤ scrollOffset ≤ maxScroll` holds, and a scroll attempt below 0 (key up
at offset 0) or above `maxScroll` (key down at the maximum) is a no-op on
the whole session state. -/
theorem scrollOffset_invariant (es : List Event) :
    (0 ≤ (applyEvents es).scrollOffset
      ∧ (applyEvents es).scrollOffset ≤ (applyEvents es).maxScroll)
    ∧ ((applyEvents es).scrollOffset = 0 →
        update (applyEvents es) (.key "up") = applyEvents es)
    ∧ ((applyEvents es).scrollOffset = (applyEvents es).maxScroll →
        update (applyEvents es) (.key "down") = applyEvents es) := by
  have hinv : ScrollInv (applyEvents es) :=
    foldl_preserves_scrollInv es initialModel ⟨le_refl 0, le_refl 0⟩
  exact ⟨hinv, scroll_up_noop_at_zero (applyEvents es),
    scroll_down_noop_at_max (applyEvents es)⟩

/-- Witness for C4 at the empty event sequence. -/
theorem scrollOffset_invariant_witness :
    (0 ≤ (applyEvents []).scrollOffset
      ∧ (applyEvents []).scrollOffset ≤ (applyEvents []).maxScroll)
    ∧ update (applyEvents []) (.key "up") = applyEvents [] := by
  have h := scrollOffset_invariant []
  exact ⟨h.1, h.2.1 (by decide)⟩

/-- The mutual-exclusivity invariant together with the fact that before
completion neither text is set (spec section 3). -/
def TextsInv (m : Model) : Prop :=
  ((m.state = GoState.selectFile ∨ m.state = GoState.processing) →
      m.transcription = "" ∧ m.error = "")
  ∧ ¬(m.transcription ≠ "" ∧ m.error ≠ "")

theorem reachable_textsInv {m : Model} (h : Reachable m) : TextsInv m := by
  induction h with
  | init => exact ⟨fun _ => ⟨rfl, rfl⟩, by simp [initialModel]⟩
  | step hr ha ih =>
    rename_i m e
    cases e with
    | key ks =>
      obtain ⟨hs, _, ht, he, _⟩ := update_key_frame m ks
      constructor
      · intro hstate
        rw [hs] at hstate
        rw [ht, he]
        exact ih.1 hstate
      · rintro ⟨ha', hb'⟩
        rw [ht] at ha'
        rw [he] at hb'
        exact ih.2 ⟨ha', hb'⟩
    | resize w hh =>
      exact ⟨fun hst => ih.1 (by simpa [update] using hst),
        fun hc => ih.2 (by simpa [update] using hc)⟩
    | tick => exact ih
    | fileChosen path =>
      simp only [update]
      split_ifs with hsel
      · obtain ⟨htr, herr⟩ := ih.1 (Or.inl hsel)
        exact ⟨fun _ => ⟨htr, herr⟩, by simp [htr]⟩
      · exact ih
    | jobSuccess text =>
      have hpr : m.state = GoState.processing := ha
      obtain ⟨htr, herr⟩ := ih.1 (Or.inr hpr)
      constructor
      · intro hstate
        simp [update] at hstate
      · simp [update, herr]
    | jobFailure msg =>
      have hpr : m.state = GoState.processing := ha
      obtain ⟨htr, herr⟩ := ih.1 (Or.inr hpr)
      constructor
      · intro hstate
        simp [update] at hstate
      · simp [update, htr]

/-- C5: along every admissible event sequence, `resultText` (the
`transcription` field) and `errorText` (the `error` field) are never both
non-empty. -/
theorem transcription_error_mutually_exclusive (m : Model) (h : Reachable m) :
    ¬(m.transcription ≠ "" ∧ m.error ≠ "") :=
  (reachable_textsInv h).2

/-- Witness for C5 at the initial session state. -/
theorem transcription_error_mutually_exclusive_witness :
    ¬(initialModel.transcription ≠ "" ∧ initialModel.error ≠ "") :=
  transcription_error_mutually_exclusive initialModel Reachable.init

/-- A complete-mode session for the resize counterexample: 8 single-character
tokens, width 9 (so the wrap width `width - 8` is 1 and the transcription
wraps to 8 lines), height 24, scroll offset 5, stored maxScroll 3, as in
Scenario E of the specification. -/
def resizeCounterModel : Model :=
  { state := .complete
    selectedFile := "f"
    transcription := "a b c d e f g h"
    error := ""
    width := 9
    height := 24
    scrollOffset := 5
    maxScroll := 3 }

/-- C1 counterexample: a resize event from height 24 to height 10 does NOT
recompute `maxScroll` from the transcription and the new dimensions and does
NOT clamp `scrollOffset`: the freshly recomputed value would be 3 (8 wrapped
lines minus the clamped viewport height 5), but after the event the scroll
offset is still 5, above that bound, contradicting the claim (and Scenario
E's `scrollOffset ≤ 3`). -/
theorem resize_does_not_reclamp_counterexample :
    (update resizeCounterModel (.resize 9 10)).scrollOffset = 5
    ∧ computeMaxScroll resizeCounterModel.transcription
        (update resizeCounterModel (.resize 9 10)).width
        (update resizeCounterModel (.resize 9 10)).height = 3
    ∧ ¬((update resizeCounterModel (.resize 9 10)).scrollOffset ≤
          computeMaxScroll resizeCounterModel.transcription
            (update resizeCounterModel (.resize 9 10)).width
            (update resizeCounterModel (.resize 9 10)).height)
    ∧ (update resizeCounterModel (.resize 9 10)).maxScroll = 3 := by
  refine ⟨rfl, by decide, by decide, rfl⟩

/-- C1 amended: a resize event only stores the new dimensions; `maxScroll`
is not recomputed and `scrollOffset` is not reclamped by the handler (the
stale scroll state persists until the next job completion, and the renderer
separately re-anchors an out-of-range offset at draw time, see
`computeWindow`). -/
theorem resize_updates_dimensions_only (m : Model) (w h : Int) :
    update m (.resize w h) = { m with width := w, height := h } := rfl

/-- A concrete reachable processing-mode session: the initial session after a
file selection. -/
def procModel : Model := update initialModel (.fileChosen "audio.mp3")

theorem procModel_reachable : Reachable procModel :=
  Reachable.step Reachable.init trivial

/-- C2: handling a job-success message in a reachable processing-mode session
yields mode Complete, stores the text, leaves the error text unset, resets
the scroll offset to 0, and sets `maxScroll` to
`max(0, totalWrappedLines - clampedHeight)`, where `totalWrappedLines` counts
the lines of the text wrapped at the current wrap width (`width - 8`, the
terminal width minus padding and border) and `clampedHeight` is the viewport
height (`height - 10`, the terminal height minus title and instructions)
clamped to a minimum of 5. -/
theorem success_transition (s : Model) (text : String)
    (hr : Reachable s) (hp : s.state = GoState.processing) :
    (update s (.jobSuccess text)).state = GoState.complete
    ∧ (update s (.jobSuccess text)).transcription = text
    ∧ (update s (.jobSuccess text)).error = ""
    ∧ (update s (.jobSuccess text)).scrollOffset = 0
    ∧ (update s (.jobSuccess text)).maxScroll =
        max 0 (((goSplitNewline (wrapText text (s.width - 8))).length : Int)
          - max 5 (s.height - 10)) := by
  have herr : s.error = "" := ((reachable_textsInv hr).1 (Or.inr hp)).2
  refine ⟨rfl, rfl, by simpa [update] using herr, rfl, ?_⟩
  show computeMaxScroll text s.width s.height = _
  simp only [computeMaxScroll, max_def]
  split_ifs <;> omega

/-- Witness for C2 at a concrete reachable processing session. -/
theorem success_transition_witness :
    (update procModel (.jobSuccess "hello world")).state = GoState.complete
    ∧ (update procModel (.jobSuccess "hello world")).transcription = "hello world"
    ∧ (update procModel (.jobSuccess "hello world")).error = ""
    ∧ (update procModel (.jobSuccess "hello world")).scrollOffset = 0
    ∧ (update procModel (.jobSuccess "hello world")).maxScroll = 0 := by
  obtain ⟨h1, h2, h3, h4, h5⟩ :=
    success_transition procModel "hello world" procModel_reachable (by decide)
  refine ⟨h1, h2, h3, h4, ?_⟩
  rw [h5]
  decide

/-- C3: handling a job-failure message in a reachable processing-mode session
yields mode Complete with the message stored verbatim as the error text and
the transcription text unset. -/
theorem failure_transition (s : Model) (msg : String)
    (hr : Reachable s) (hp : s.state = GoState.processing) :
    (update s (.jobFailure msg)).state = GoState.complete
    ∧ (update s (.jobFailure msg)).error = msg
    ∧ (update s (.jobFailure msg)).transcription = "" := by
  have htr : s.transcription = "" := ((reachable_textsInv hr).1 (Or.inr hp)).1
  exact ⟨rfl, rfl, by simpa [update] using htr⟩

/-- Witness for C3 at Scenario D of the specification. -/
theorem failure_transition_witness :
    (update procModel (.jobFailure "ffmpeg exit 1")).state = GoState.complete
    ∧ (update procModel (.jobFailure "ffmpeg exit 1")).error = "ffmpeg exit 1"
    ∧ (update procModel (.jobFailure "ffmpeg exit 1")).transcription = "" :=
  failure_transition procModel "ffmpeg exit 1" procModel_reachable (by decide)

/-- C10: the scroll keys (up/k, down/j, home, end) never change the mode, the
transcription, the error text, or `maxScroll`, and outside a complete-mode
session with a non-empty transcription (in particular in the failure view,
while selecting a file, and while processing) they leave the whole session
unchanged, so `scrollOffset` changes only when mode is Complete and the
transcription is non-empty. -/
theorem scroll_keys_only_scroll (m : Model) (ks : String)
    (hks : ks ∈ ["up", "k", "down", "j", "home", "end"]) :
    ((update m (.key ks)).state = m.state
      ∧ (update m (.key ks)).transcription = m.transcription
      ∧ (update m (.key ks)).error = m.error
      ∧ (update m (.key ks)).maxScroll = m.maxScroll)
    ∧ (¬(m.state = GoState.complete ∧ m.transcription ≠ "") →
        update m (.key ks) = m) := by
  obtain ⟨h1, _, h2, h3, h4, _⟩ := update_key_frame m ks
  refine ⟨⟨h1, h2, h3, h4⟩, ?_⟩
  intro hnot
  simp only [List.mem_cons, List.not_mem_nil, or_false] at hks
  rcases hks with rfl | rfl | rfl | rfl | rfl | rfl
  · simp only [update, show keyCase "up" = KeyCase.upK from by decide]
    rw [if_neg hnot]
  · simp only [update, show keyCase "k" = KeyCase.upK from by decide]
    rw [if_neg hnot]
  · simp only [update, show keyCase "down" = KeyCase.downK from by decide]
    rw [if_neg hnot]
  · simp only [update, show keyCase "j" = KeyCase.downK from by decide]
    rw [if_neg hnot]
  · simp only [update, show keyCase "home" = KeyCase.homeK from by decide]
    rw [if_neg hnot]
  · simp only [update, show keyCase "end" = KeyCase.endK from by decide]
    rw [if_neg hnot]

/-- Witness for C10: a scroll key in the initial (file-selection) session is
a complete no-op. -/
theorem scroll_keys_only_scroll_witness :
    update initialModel (.key "up") = initialModel
    ∧ (update initialModel (.key "up")).maxScroll = initialModel.maxScroll := by
  obtain ⟨hframe, hnoop⟩ := scroll_keys_only_scroll initialModel "up" (by decide)
  exact ⟨hnoop (by decide), hframe.2.2.2⟩

/-- C9: once the external pipeline steps have succeeded, the job always
resolves as a success (never a `Failure`), and an empty or whitespace-only
transcription yields the distinct valid outcome
`"No speech detected in the audio file."` with a nil error. -/
theorem empty_transcription_is_success (raw : String) :
    (∃ t, processAudioSTTResult raw = Except.ok t)
    ∧ (goTrimSpace raw = "" →
        processAudioSTTResult raw = Except.ok "No speech detected in the audio file.") := by
  unfold processAudioSTTResult transcribeAudioResult
  constructor
  · by_cases h : goTrimSpace raw = ""
    · exact ⟨"No speech detected in the audio file.", by simp [h]⟩
    · exact ⟨goTrimSpace raw, by simp [h]⟩
  · intro h
    simp [h]

/-- Witness for C9 at a whitespace-only pipeline output. -/
theorem empty_transcription_is_success_witness :
    goTrimSpace " \n " = ""
    ∧ processAudioSTTResult " \n " = Except.ok "No speech detected in the audio file." :=
  ⟨by decide, (empty_transcription_is_success " \n ").2 (by decide)⟩

/-! ### Lemmas about the scroll window -/

theorem padded_window_length (v : List String) (thN : Nat)
    (hv : ∀ x ∈ v, ∀ c ∈ x.data, (c == nlChar) = false)
    (hle : v.length ≤ thN) (h1 : 1 ≤ thN) :
    (goSplitNewline (goJoin "\n" v)
      ++ List.replicate (thN - (goSplitNewline (goJoin "\n" v)).length) "").length = thN := by
  rcases eq_or_ne v [] with rfl | hne
  · rw [show goSplitNewline (goJoin "\n" ([] : List String)) = [""] from rfl]
    simp
    omega
  · rw [goSplit_goJoin v hne hv]
    simp
    omega

theorem computeWindow_length (lines : List String) (offset : Nat) (height : Int)
    (hnl : ∀ l ∈ lines, ∀ c ∈ l.data, (c == nlChar) = false) :
    (computeWindow lines offset height).length
      = (if height < 5 then (5 : Int) else height).toNat := by
  have hth5 : 5 ≤ (if height < 5 then (5 : Int) else height).toNat := by
    split_ifs <;> omega
  simp only [computeWindow]
  by_cases hoff : offset ≥ lines.length
  · rw [if_pos hoff, if_pos hoff]
    refine padded_window_length _ _
      (fun x hx => hnl x (List.mem_of_mem_drop (List.mem_of_mem_take hx))) ?_ (by omega)
    rw [List.length_take, List.length_drop]
    omega
  · rw [if_neg hoff, if_neg hoff]
    refine padded_window_length _ _
      (fun x hx => hnl x (List.mem_of_mem_drop (List.mem_of_mem_take hx))) ?_ (by omega)
    rw [List.length_take, List.length_drop]
    omega

theorem computeWindow_reanchor (lines : List String) (offset : Nat) (height : Int)
    (hoff : lines.length ≤ offset) :
    computeWindow lines offset height
      = computeWindow lines
          (lines.length - (if height < 5 then (5 : Int) else height).toNat) height := by
  have hth5 : 5 ≤ (if height < 5 then (5 : Int) else height).toNat := by
    split_ifs <;> omega
  simp only [computeWindow]
  rcases Nat.eq_zero_or_pos lines.length with h0 | hpos
  · have hoff' : lines.length
        ≤ lines.length - (if height < 5 then (5 : Int) else height).toNat := by omega
    rw [if_pos hoff, if_pos hoff, if_pos hoff', if_pos hoff']
  · have hlt : lines.length - (if height < 5 then (5 : Int) else height).toNat
        < lines.length := by omega
    have hmin : min ((lines.length - (if height < 5 then (5 : Int) else height).toNat)
        + (if height < 5 then (5 : Int) else height).toNat) lines.length
        = lines.length := by omega
    rw [if_pos hoff, if_pos hoff, if_neg (not_le.mpr hlt), if_neg (not_le.mpr hlt), hmin]

theorem computeWindow_normal (lines : List String) (offset : Nat) (height : Int)
    (hnl : ∀ l ∈ lines, ∀ c ∈ l.data, (c == nlChar) = false)
    (hoff : offset < lines.length) :
    computeWindow lines offset height
      = (lines.drop offset).take ((if height < 5 then (5 : Int) else height).toNat)
        ++ List.replicate ((if height < 5 then (5 : Int) else height).toNat
            - (lines.length - offset)) "" := by
  have hth5 : 5 ≤ (if height < 5 then (5 : Int) else height).toNat := by
    split_ifs <;> omega
  simp only [computeWindow]
  rw [if_neg (not_le.mpr hoff), if_neg (not_le.mpr hoff)]
  have h1 : min (offset + (if height < 5 then (5 : Int) else height).toNat) lines.length
      - offset
      = min (if height < 5 then (5 : Int) else height).toNat (lines.length - offset) := by
    omega
  rw [h1]
  have hvlen : ((lines.drop offset).take
      (min (if height < 5 then (5 : Int) else height).toNat (lines.length - offset))).length
      = min (if height < 5 then (5 : Int) else height).toNat (lines.length - offset) := by
    rw [List.length_take, List.length_drop]
    omega
  have hvne : (lines.drop offset).take
      (min (if height < 5 then (5 : Int) else height).toNat (lines.length - offset)) ≠ [] := by
    refine List.length_pos.mp ?_
    rw [hvlen]
    omega
  rw [goSplit_goJoin _ hvne
    (fun x hx => hnl x (List.mem_of_mem_drop (List.mem_of_mem_take hx))), hvlen]
  have htake : (lines.drop offset).take
      (min (if height < 5 then (5 : Int) else height).toNat (lines.length - offset))
      = (lines.drop offset).take (if height < 5 then (5 : Int) else height).toNat := by
    rw [List.take_eq_take, List.length_drop]
    omega
  rw [htake]
  congr 1
  congr 1
  omega

/-- C7: the rendered viewport always holds exactly `max(height, 5)` line
entries (`height` being the viewport height passed to the window computation,
which the renderer derives from the terminal height as `height - 10`): real
lines starting at the scroll offset come first, blank-padding lines are
appended when fewer remain, and when the offset is at or past the end of the
wrapped lines the window is re-anchored to `start = max(0, len(lines) -
height)` so the last lines are shown and the viewport is never empty. -/
theorem computeWindow_properties :
    (∀ (lines : List String) (offset : Nat) (height : Int),
        (∀ l ∈ lines, ∀ c ∈ l.data, (c == nlChar) = false) →
        (computeWindow lines offset height).length
          = (if height < 5 then (5 : Int) else height).toNat)
    ∧ (∀ (lines : List String) (offset : Nat) (height : Int),
        lines.length ≤ offset →
        computeWindow lines offset height
          = computeWindow lines
              (lines.length - (if height < 5 then (5 : Int) else height).toNat) height)
    ∧ (∀ (lines : List String) (offset : Nat) (height : Int),
        (∀ l ∈ lines, ∀ c ∈ l.data, (c == nlChar) = false) →
        offset < lines.length →
        computeWindow lines offset height
          = (lines.drop offset).take ((if height < 5 then (5 : Int) else height).toNat)
            ++ List.replicate ((if height < 5 then (5 : Int) else height).toNat
                - (lines.length - offset)) "")
    ∧ (∀ m : Model,
        (renderVisibleLines m).length
          = (if m.height - 10 < 5 then (5 : Int) else m.height - 10).toNat) := by
  refine ⟨computeWindow_length, computeWindow_reanchor, computeWindow_normal, ?_⟩
  intro m
  exact computeWindow_length _ _ _
    (fun l hl => goSplitNewline_nl_free (wrapText m.transcription (m.width - 8)) l hl)

/-- Witness for C7 at a concrete shrunk-content window. -/
theorem computeWindow_properties_witness :
    (computeWindow ["a", "bb"] 5 3).length = 5
    ∧ computeWindow ["a", "bb"] 5 3
        = computeWindow ["a", "bb"]
            ((["a", "bb"] : List String).length
              - (if (3 : Int) < 5 then (5 : Int) else 3).toNat) 3 := by
  have h := computeWindow_properties
  constructor
  · have h1 := h.1 ["a", "bb"] 5 3 (by decide)
    rw [h1]
    decide
  · exact h.2.1 ["a", "bb"] 5 3 (by decide)
